import Mathlib

/-!
Verification of the caderidflux query engine (src/caderidflux/query.py).

This file gives a shallow embedding of the query-construction and
chunked-retrieval core:

* the time-range partitioner inside `InfluxQuery.data_query` (the
  `time_dict` table of per-unit window counts and deltas, and the
  `for t_split in range(diff)` loop producing sub-windows
  `start + i*unit .. start + (i+1)*unit`);
* the stage sequence appended to a `CustomFluxQuery` per sub-window
  (`add_field`, `add_groups`, `add_filter`, `add_pivot`,
  `add_specific_filter`, `add_filter_range`, `add_scaling`, `add_window`);
* the accumulation and de-duplication of chunk tables
  (`pd.concat` followed by dropping rows whose index timestamp
  duplicates an earlier row, `keep='first'`).

Timestamps are modelled as natural numbers counting seconds; calendar
dates (needed for the `month`/`year` split units, which the source
implements with `dateutil.relativedelta`) are modelled as
year/month/day records.  Values are modelled as integers.
-/

namespace Caderidflux

/-! ## Time-window planning

`data_query` computes, for a chosen split unit, a window count `diff`
and a per-window delta, then iterates `for t_split in range(diff)` with
`start_t = start_date + delta * t_split` and
`end_t = start_date + delta * (t_split + 1)`.

`planWindows step n` is the list of pairs `(step i, step (i+1))` for
`i` in `range n`; each concrete unit instantiates `step`.
-/

def planWindows {α : Type} (step : Nat → α) (n : Nat) : List (α × α) :=
  (List.range n).map (fun i => (step i, step (i + 1)))

/-- Sub-windows for the fixed-duration units (`hour`, `day`, `week`,
`None`): window `i` runs from `s + u*i` to `s + u*(i+1)` seconds. -/
def secWindows (s u n : Nat) : List (Nat × Nat) :=
  planWindows (fun i => s + u * i) n

/-- Window count for `time_split='hour'`: translated from
`(end-start).days * 24 + (end-start).seconds // 3600`, where a Python
timedelta stores `days = total / 86400` and `seconds = total % 86400`. -/
def hourDiff (s e : Nat) : Nat :=
  ((e - s) / 86400) * 24 + ((e - s) % 86400) / 3600

/-- Window count for `time_split='day'`: `(end-start).days`. -/
def dayDiff (s e : Nat) : Nat := (e - s) / 86400

/-- Window count for `time_split='week'`:
`int(np.ceil((end-start).days / 7))`, the exact ceiling of the day
count divided by 7. -/
def weekDiff (s e : Nat) : Nat := (dayDiff s e + 6) / 7

/-- Window count for `time_split=None`: the constant 1. -/
def noneDiff : Nat := 1

/-- Sub-windows produced for `time_split='hour'`
(delta `timedelta(hours=1)` = 3600 s). -/
def hourWindows (s e : Nat) : List (Nat × Nat) :=
  secWindows s 3600 (hourDiff s e)

/-- Sub-windows produced for `time_split='day'`
(delta `timedelta(days=1)` = 86400 s). -/
def dayWindows (s e : Nat) : List (Nat × Nat) :=
  secWindows s 86400 (dayDiff s e)

/-- Sub-windows produced for `time_split='week'`
(delta `timedelta(days=7)` = 604800 s). -/
def weekWindows (s e : Nat) : List (Nat × Nat) :=
  secWindows s 604800 (weekDiff s e)

/-- Sub-windows produced for `time_split=None`
(delta `timedelta(seconds=(end-start).days*86400 + (end-start).seconds)`,
i.e. the whole range length). -/
def noneWindows (s e : Nat) : List (Nat × Nat) :=
  secWindows s (e - s) noneDiff

/-! ### Calendar dates, for the `month` and `year` units -/

/-- A calendar date, standing in for the date part of a Python
`datetime`. -/
structure Date where
  year : Nat
  month : Nat
  day : Nat
  deriving DecidableEq, Repr

/-- Gregorian leap-year rule. -/
def isLeap (y : Nat) : Bool :=
  y % 4 = 0 && (y % 100 != 0 || y % 400 = 0)

/-- Number of days in a month. -/
def daysInMonth (y m : Nat) : Nat :=
  if m = 2 then (if isLeap y then 29 else 28)
  else if m = 4 || m = 6 || m = 9 || m = 11 then 30
  else 31

/-- Computes `d + relativedelta(months=k)` as implemented by
`dateutil.relativedelta`: advance the month index, carrying into the
year, and clip the day to the length of the resulting month. -/
def Date.addMonths (d : Date) (k : Nat) : Date :=
  let total := d.month - 1 + k
  let y := d.year + total / 12
  let m := total % 12 + 1
  ⟨y, m, min d.day (daysInMonth y m)⟩

/-- Computes `d + relativedelta(years=k)`: advance the year and clip the day
(Feb 29 → Feb 28 in a non-leap year). -/
def Date.addYears (d : Date) (k : Nat) : Date :=
  ⟨d.year + k, d.month, min d.day (daysInMonth (d.year + k) d.month)⟩

/-- Window count for `time_split='month'`:
`(end.year - start.year) * 12 + (end.month - start.month)`, computed in
`Int` as Python does. -/
def monthDiff (a b : Date) : Int :=
  ((b.year : Int) - (a.year : Int)) * 12 + ((b.month : Int) - (a.month : Int))

/-- Window count for `time_split='year'`: `end.year - start.year`. -/
def yearDiff (a b : Date) : Int :=
  (b.year : Int) - (a.year : Int)

/-- Sub-windows for `time_split='month'`: window `i` runs from
`start + relativedelta(months=i)` to `start + relativedelta(months=i+1)`. -/
def monthWindows (d : Date) (n : Nat) : List (Date × Date) :=
  planWindows (fun i => d.addMonths i) n

/-- Sub-windows for `time_split='year'`. -/
def yearWindows (d : Date) (n : Nat) : List (Date × Date) :=
  planWindows (fun i => d.addYears i) n

/-- The month sub-windows `data_query` iterates for a request from `a`
to `b` (`range(diff)` of a possibly negative `diff` iterates
`max diff 0` times). -/
def dataQueryMonthWindows (a b : Date) : List (Date × Date) :=
  monthWindows a (monthDiff a b).toNat

/-- Order-preserving encoding of a date as a natural number
(valid months are below 16 and valid days below 32, so the encoding is
lexicographic on year, month, day). -/
def Date.enc (d : Date) : Nat :=
  d.year * 512 + d.month * 32 + d.day

/-- A window list over dates, re-expressed over encoded timestamps. -/
def encWindows (ws : List (Date × Date)) : List (Nat × Nat) :=
  ws.map (fun w => (w.1.enc, w.2.enc))

/-! ### Structural properties of window lists -/

/-- Each window ends where the next one starts. -/
def contiguousW {α : Type} (ws : List (α × α)) : Prop :=
  List.Chain' (fun a b => a.2 = b.1) ws

/-- Windows are ordered ascending and non-overlapping: every earlier
window ends no later than every later window starts, and each window
is non-degenerate. -/
def orderedW (ws : List (Nat × Nat)) : Prop :=
  List.Pairwise (fun a b => a.2 ≤ b.1) ws ∧ ∀ w ∈ ws, w.1 < w.2

/-- The windows cover, between them, exactly the half-open interval
`[lo, hi)`. -/
def coversW (ws : List (Nat × Nat)) (lo hi : Nat) : Prop :=
  ∀ t, (∃ w ∈ ws, w.1 ≤ t ∧ t < w.2) ↔ (lo ≤ t ∧ t < hi)

theorem planWindows_succ {α : Type} (step : Nat → α) (n : Nat) :
    planWindows step (n + 1)
      = planWindows step n ++ [(step n, step (n + 1))] := by
  simp [planWindows, List.range_succ]

theorem planWindows_getLast? {α : Type} (step : Nat → α) (n : Nat) :
    (planWindows step (n + 1)).getLast? = some (step n, step (n + 1)) := by
  rw [planWindows_succ]
  exact List.getLast?_concat _

theorem mem_planWindows {α : Type} {step : Nat → α} {n : Nat}
    {w : α × α} :
    w ∈ planWindows step n ↔ ∃ i < n, w = (step i, step (i + 1)) := by
  simp only [planWindows, List.mem_map, List.mem_range]
  constructor
  · rintro ⟨i, hi, rfl⟩; exact ⟨i, hi, rfl⟩
  · rintro ⟨i, hi, rfl⟩; exact ⟨i, hi, rfl⟩

theorem planWindows_contiguous {α : Type} (step : Nat → α) (n : Nat) :
    contiguousW (planWindows step n) := by
  induction n with
  | zero => simp [contiguousW, planWindows]
  | succ n ih =>
    rw [contiguousW, planWindows_succ]
    refine List.Chain'.append ih (List.chain'_singleton _) ?_
    intro x hx y hy
    cases n with
    | zero => simp [planWindows] at hx
    | succ m =>
      rw [planWindows_getLast?] at hx
      simp only [Option.mem_def, Option.some.injEq] at hx
      simp only [List.head?_cons, Option.mem_def, Option.some.injEq] at hy
      subst hx; subst hy; rfl

theorem planWindows_ordered (step : Nat → Nat)
    (h : ∀ k, step k < step (k + 1)) (n : Nat) :
    orderedW (planWindows step n) := by
  have hm : StrictMono step := strictMono_nat_of_lt_succ h
  constructor
  · rw [planWindows, List.pairwise_map]
    refine (List.pairwise_lt_range n).imp ?_
    intro i j hij
    exact hm.monotone (Nat.succ_le_of_lt hij)
  · intro w hw
    rcases mem_planWindows.mp hw with ⟨i, _, rfl⟩
    exact h i

theorem planWindows_covers (step : Nat → Nat)
    (h : ∀ k, step k < step (k + 1)) (n : Nat) :
    coversW (planWindows step n) (step 0) (step n) := by
  have hm : StrictMono step := strictMono_nat_of_lt_succ h
  intro t
  induction n with
  | zero => simp [planWindows]
  | succ n ih =>
    rw [planWindows_succ]
    constructor
    · rintro ⟨w, hw, hw1, hw2⟩
      rcases List.mem_append.mp hw with hw | hw
      · rcases (ih.mp ⟨w, hw, hw1, hw2⟩) with ⟨h1, h2⟩
        exact ⟨h1, lt_of_lt_of_le h2 (hm.monotone (Nat.le_succ n))⟩
      · simp only [List.mem_singleton] at hw
        subst hw
        exact ⟨le_trans (hm.monotone (Nat.zero_le n)) hw1, hw2⟩
    · rintro ⟨h1, h2⟩
      by_cases hcase : t < step n
      · rcases ih.mpr ⟨h1, hcase⟩ with ⟨w, hw, hw1, hw2⟩
        exact ⟨w, List.mem_append.mpr (Or.inl hw), hw1, hw2⟩
      · refine ⟨(step n, step (n + 1)),
          List.mem_append.mpr (Or.inr (List.mem_singleton.mpr rfl)),
          Nat.le_of_not_lt hcase, h2⟩

/-! Strict growth of the encoded `month`/`year` step functions. -/

theorem daysInMonth_le (y m : Nat) : daysInMonth y m ≤ 31 := by
  unfold daysInMonth
  split
  · split <;> omega
  · split <;> omega

theorem Date.enc_addMonths_lt (d : Date) (k : Nat) :
    (d.addMonths k).enc < (d.addMonths (k + 1)).enc := by
  unfold Date.addMonths Date.enc
  simp only
  have h1 : 12 * ((d.month - 1 + k) / 12) + (d.month - 1 + k) % 12
      = d.month - 1 + k := Nat.div_add_mod _ 12
  have h2 : 12 * ((d.month - 1 + (k + 1)) / 12) + (d.month - 1 + (k + 1)) % 12
      = d.month - 1 + (k + 1) := Nat.div_add_mod _ 12
  have h3 : (d.month - 1 + k) % 12 < 12 := Nat.mod_lt _ (by omega)
  have h4 : (d.month - 1 + (k + 1)) % 12 < 12 := Nat.mod_lt _ (by omega)
  have h5 : min d.day (daysInMonth (d.year + (d.month - 1 + k) / 12)
      ((d.month - 1 + k) % 12 + 1)) ≤ 31 :=
    le_trans (Nat.min_le_right _ _) (daysInMonth_le _ _)
  have h6 : min d.day (daysInMonth (d.year + (d.month - 1 + (k + 1)) / 12)
      ((d.month - 1 + (k + 1)) % 12 + 1)) ≤ 31 :=
    le_trans (Nat.min_le_right _ _) (daysInMonth_le _ _)
  omega

theorem Date.enc_addYears_lt (d : Date) (k : Nat) :
    (d.addYears k).enc < (d.addYears (k + 1)).enc := by
  unfold Date.addYears Date.enc
  simp only
  have h5 : min d.day (daysInMonth (d.year + k) d.month) ≤ 31 :=
    le_trans (Nat.min_le_right _ _) (daysInMonth_le _ _)
  have h6 : min d.day (daysInMonth (d.year + (k + 1)) d.month) ≤ 31 :=
    le_trans (Nat.min_le_right _ _) (daysInMonth_le _ _)
  omega

theorem encWindows_monthWindows (d : Date) (n : Nat) :
    encWindows (monthWindows d n)
      = planWindows (fun i => (d.addMonths i).enc) n := by
  simp [encWindows, monthWindows, planWindows, List.map_map, Function.comp]

theorem encWindows_yearWindows (d : Date) (n : Nat) :
    encWindows (yearWindows d n)
      = planWindows (fun i => (d.addYears i).enc) n := by
  simp [encWindows, yearWindows, planWindows, List.map_map, Function.comp]

/-- C1 (amended): for every split unit the sub-windows iterated by
`data_query` are ordered ascending, contiguous and non-overlapping, and
their union is exactly `[start, start + diff*unit)` where `diff` is the
computed window count — which may fall short of, or exceed, the
requested `end`; no clipping of the final sub-window is performed.
For the fixed-duration units (`hour`, `day`, `week`, `None`) this is
stated over second-valued timestamps; for `month`/`year` over calendar
dates (with dates compared through their order-preserving encoding). -/
theorem data_query_subwindow_structure :
    (∀ s u n : Nat, 0 < u →
        contiguousW (secWindows s u n) ∧ orderedW (secWindows s u n) ∧
        coversW (secWindows s u n) s (s + u * n)) ∧
    (∀ (d : Date) (n : Nat),
        contiguousW (monthWindows d n) ∧
        orderedW (encWindows (monthWindows d n)) ∧
        coversW (encWindows (monthWindows d n))
          (d.addMonths 0).enc (d.addMonths n).enc) ∧
    (∀ (d : Date) (n : Nat),
        contiguousW (yearWindows d n) ∧
        orderedW (encWindows (yearWindows d n)) ∧
        coversW (encWindows (yearWindows d n))
          (d.addYears 0).enc (d.addYears n).enc) := by
  refine ⟨?_, ?_, ?_⟩
  · intro s u n hu
    have hmono : ∀ k, s + u * k < s + u * (k + 1) := by
      intro k
      rw [Nat.mul_succ]
      omega
    refine ⟨planWindows_contiguous _ n, planWindows_ordered _ hmono n, ?_⟩
    have := planWindows_covers (fun i => s + u * i) hmono n
    simpa [secWindows] using this
  · intro d n
    refine ⟨planWindows_contiguous _ n, ?_, ?_⟩
    · rw [encWindows_monthWindows]
      exact planWindows_ordered _ (Date.enc_addMonths_lt d) n
    · rw [encWindows_monthWindows]
      exact planWindows_covers _ (Date.enc_addMonths_lt d) n
  · intro d n
    refine ⟨planWindows_contiguous _ n, ?_, ?_⟩
    · rw [encWindows_yearWindows]
      exact planWindows_ordered _ (Date.enc_addYears_lt d) n
    · rw [encWindows_yearWindows]
      exact planWindows_covers _ (Date.enc_addYears_lt d) n

/-- Witness for `data_query_subwindow_structure` at the hour unit with
two windows. -/
theorem data_query_subwindow_structure_witness :
    0 < 3600 ∧
      (contiguousW (secWindows 0 3600 2) ∧ orderedW (secWindows 0 3600 2) ∧
        coversW (secWindows 0 3600 2) 0 (0 + 3600 * 2)) :=
  ⟨by decide, data_query_subwindow_structure.1 0 3600 2 (by decide)⟩

/-- C1 counterexample: the claim fails as stated.  With the hour unit
and a request from 0 s to 5400 s (1.5 h), `data_query` produces the
single sub-window `[0, 3600)`: the instant 3600 lies in `[start, end)`
but in no sub-window, so the union is not `[start, end)`.  With the
week unit and a request of 8 days (691200 s), the final sub-window ends
at 1209600 s, exceeding the requested end — the end is never clipped. -/
theorem data_query_subwindow_claim_false :
    hourWindows 0 5400 = [(0, 3600)] ∧
    (0 ≤ 3600 ∧ 3600 < 5400) ∧
    (¬ ∃ w ∈ hourWindows 0 5400, w.1 ≤ 3600 ∧ 3600 < w.2) ∧
    weekWindows 0 691200 = [(0, 604800), (604800, 1209600)] ∧
    691200 < 1209600 := by
  refine ⟨by decide, by decide, by decide, by decide, by decide⟩

/-- C3 counterexample: with `split unit = month`, a request from
2023-01-15 to 2023-04-03 does not produce the four calendar-aligned
sub-windows the claim describes. -/
theorem month_split_claim_false :
    dataQueryMonthWindows ⟨2023, 1, 15⟩ ⟨2023, 4, 3⟩
      ≠ [(⟨2023, 1, 15⟩, ⟨2023, 2, 1⟩), (⟨2023, 2, 1⟩, ⟨2023, 3, 1⟩),
         (⟨2023, 3, 1⟩, ⟨2023, 4, 1⟩), (⟨2023, 4, 1⟩, ⟨2023, 4, 3⟩)] := by
  decide

/-- C3 (amended): with `split unit = month`, a request from 2023-01-15
to 2023-04-03 produces exactly 3 sub-windows — the count is the
calendar month delta `(4-1) = 3` — whose interior boundaries keep the
start's day-of-month (the 15th) rather than aligning to the first of
each month, and whose final end 2023-04-15 overshoots the requested
end without clipping. -/
theorem month_split_day_anchored :
    dataQueryMonthWindows ⟨2023, 1, 15⟩ ⟨2023, 4, 3⟩
      = [(⟨2023, 1, 15⟩, ⟨2023, 2, 15⟩), (⟨2023, 2, 15⟩, ⟨2023, 3, 15⟩),
         (⟨2023, 3, 15⟩, ⟨2023, 4, 15⟩)] := by
  decide

/-! ## Query construction (`CustomFluxQuery`)

Each `add_*` method appends one textual stage to `_query_list`
(`__init__` seeds it with four lines: the debug import, `from(bucket:)`,
`range(start:, stop:)` and the measurement filter).  A stage is
modelled as a constructor carrying exactly the data interpolated into
the corresponding f-string; `return_query` joins the list, so the list
itself is the rendered query. -/

/-- A value in the `bool_filters` mapping of `data_query`: either a
plain tag value (rendered by `add_filter`) or a
`{'Value': ..., 'Col': ...}` dict (rendered by `add_specific_filter`,
whose `.get` calls may yield `None`). -/
inductive BoolFilterVal
  | plain (value : String)
  | targeted (value : Option String) (col : Option String)
  deriving DecidableEq, Repr

/-- One entry of the `range_filters` argument:
keys `Field`, `Min`, `Max`, `Min Equal`, `Max Equal`. -/
structure RangeFilter where
  field : String
  min : Int
  max : Int
  minEqual : Bool
  maxEqual : Bool
  deriving DecidableEq, Repr

/-- One entry of the `scaling` argument: key `Field`, optional keys
`Start`, `End` (defaulting to the query's own start/end), and `Slope`,
`Offset` (defaulting to 1 and 0). -/
structure ScaleConf where
  field : String
  start : Option Nat
  stop : Option Nat
  slope : Option Int
  offset : Option Int
  deriving DecidableEq, Repr

/-- One line of `_query_list`. -/
inductive Stage
  | importInternal
  | fromBucket (bucket : String)
  | rangeStage (start stop : Nat)
  | measurementFilter (measurement : String)
  | fieldFilter (fields : List String)
  | groupStage (columns : List String)
  | filterStage (key value : String)
  | pivotStage (columns : List String)
  | specificFilter (key : String) (value col : Option String)
  | rangeFilterStage (field : String) (lo hi : Int) (minEqual maxEqual : Bool)
  | scalingStage (field : String) (start stop : Nat) (slope offset : Int)
  | windowStage (winRange winFunc : String) (timeStarting : Bool)
  deriving DecidableEq, Repr

/-- The kind of a stage, for reasoning about stage order. -/
inductive StageKind
  | importK | fromK | rangeK | measK | fieldK | groupK | filterK
  | pivotK | specificK | rangeFilterK | scalingK | windowK
  deriving DecidableEq, Repr

def Stage.kind : Stage → StageKind
  | .importInternal => .importK
  | .fromBucket _ => .fromK
  | .rangeStage _ _ => .rangeK
  | .measurementFilter _ => .measK
  | .fieldFilter _ => .fieldK
  | .groupStage _ => .groupK
  | .filterStage _ _ => .filterK
  | .pivotStage _ => .pivotK
  | .specificFilter _ _ _ => .specificK
  | .rangeFilterStage _ _ _ _ _ => .rangeFilterK
  | .scalingStage _ _ _ _ _ => .scalingK
  | .windowStage _ _ _ => .windowK

/-- The stage appended by `add_filter_range` for one entry. -/
def rangeFilterStageOf (f : RangeFilter) : Stage :=
  .rangeFilterStage f.field f.min f.max f.minEqual f.maxEqual

/-- The stage appended by `add_scaling`: `Start`/`End` default to the
query's own `_start`/`_end`, `Slope` to 1 and `Offset` to 0. -/
def addScaling (qStart qEnd : Nat) (conf : ScaleConf) : Stage :=
  .scalingStage conf.field (conf.start.getD qStart) (conf.stop.getD qEnd)
    (conf.slope.getD 1) (conf.offset.getD 0)

/-- The plain-filter stages appended by the first `bool_filters` loop
of `data_query` (`add_filter` for every non-dict value, in mapping
order). -/
def plainFilters (bf : List (String × BoolFilterVal)) : List Stage :=
  bf.filterMap (fun kv =>
    match kv.2 with
    | .plain v => some (.filterStage kv.1 v)
    | .targeted _ _ => none)

/-- The targeted-filter stages appended by the second `bool_filters`
loop of `data_query` (`add_specific_filter` for every dict value). -/
def specificFilters (bf : List (String × BoolFilterVal)) : List Stage :=
  bf.filterMap (fun kv =>
    match kv.2 with
    | .plain _ => none
    | .targeted v c => some (.specificFilter kv.1 v c))

/-- The full stage list `data_query` renders for one sub-window
`[startT, endT)` (lines 193–211 of query.py): constructor stages, then
`add_field(fields)`, `add_groups(groups + ["_field"])`, the plain
boolean filters, `add_pivot(groups + ["_field"])`, the targeted
boolean filters, `add_filter_range(range_filters)` when the list is
non-empty, one `add_scaling` per scaling entry, and finally
`add_window(win_range, win_func, time_starting=hour_beginning)`. -/
def buildSubQuery (startT endT : Nat) (bucket measurement : String)
    (fields groups : List String)
    (boolFilters : List (String × BoolFilterVal))
    (rangeFilters : List RangeFilter)
    (scaling : List ScaleConf)
    (winRange winFunc : String) (hourBeginning : Bool) : List Stage :=
  [Stage.importInternal, Stage.fromBucket bucket,
    Stage.rangeStage startT endT, Stage.measurementFilter measurement,
    Stage.fieldFilter fields,
    Stage.groupStage (groups ++ ["_field"])]
  ++ plainFilters boolFilters
  ++ [Stage.pivotStage (groups ++ ["_field"])]
  ++ specificFilters boolFilters
  ++ (if rangeFilters.isEmpty then []
      else rangeFilters.map rangeFilterStageOf)
  ++ scaling.map (addScaling startT endT)
  ++ [Stage.windowStage winRange winFunc hourBeginning]

theorem map_kind_of_forall {l : List Stage} {k : StageKind}
    (h : ∀ x ∈ l, x.kind = k) :
    l.map Stage.kind = List.replicate l.length k := by
  induction l with
  | nil => rfl
  | cons a l ih =>
    simp only [List.map_cons, List.length_cons, List.replicate_succ]
    exact congrArg₂ _ (h a (List.mem_cons_self a l))
      (ih (fun x hx => h x (List.mem_cons_of_mem a hx)))

theorem plainFilters_kind (bf : List (String × BoolFilterVal)) :
    ∀ x ∈ plainFilters bf, x.kind = .filterK := by
  intro x hx
  rcases List.mem_filterMap.mp hx with ⟨kv, _, heq⟩
  cases h : kv.2 <;> rw [h] at heq
  · cases heq; rfl
  · cases heq

theorem specificFilters_kind (bf : List (String × BoolFilterVal)) :
    ∀ x ∈ specificFilters bf, x.kind = .specificK := by
  intro x hx
  rcases List.mem_filterMap.mp hx with ⟨kv, _, heq⟩
  cases h : kv.2 <;> rw [h] at heq
  · cases heq
  · cases heq; rfl

theorem ifEmpty_map {α β : Type} (l : List α) (f : α → β) :
    (if l.isEmpty then [] else l.map f) = l.map f := by
  cases l <;> rfl

/-- C2 (amended): the stages of every rendered sub-window query appear
in this fixed order: the four source stages (debug import, bucket,
time range, measurement filter), field selection, grouping, the plain
boolean filters, the pivot stage, the targeted boolean filters, the
range filters, the scaling stages, and the window/aggregation stage
last.  In particular — contrary to the claimed §4.1 order — the pivot
stage precedes the targeted filters and the window stage, and the
window/aggregation stage (not scaling) is rendered last. -/
theorem data_query_stage_order (startT endT : Nat)
    (bucket measurement : String) (fields groups : List String)
    (bf : List (String × BoolFilterVal)) (rf : List RangeFilter)
    (sc : List ScaleConf) (winRange winFunc : String) (hb : Bool) :
    (buildSubQuery startT endT bucket measurement fields groups bf rf sc
        winRange winFunc hb).map Stage.kind
      = [.importK, .fromK, .rangeK, .measK, .fieldK, .groupK]
        ++ List.replicate (plainFilters bf).length .filterK
        ++ [.pivotK]
        ++ List.replicate (specificFilters bf).length .specificK
        ++ List.replicate rf.length .rangeFilterK
        ++ List.replicate sc.length .scalingK
        ++ [.windowK] := by
  have h1 := map_kind_of_forall (plainFilters_kind bf)
  have h2 := map_kind_of_forall (specificFilters_kind bf)
  have h3 : (rf.map rangeFilterStageOf).map Stage.kind
      = List.replicate rf.length .rangeFilterK := by
    rw [map_kind_of_forall (l := rf.map rangeFilterStageOf)
      (fun x hx => by rcases List.mem_map.mp hx with ⟨f, _, rfl⟩; rfl)]
    rw [List.length_map]
  have h4 : (sc.map (addScaling startT endT)).map Stage.kind
      = List.replicate sc.length .scalingK := by
    rw [map_kind_of_forall (l := sc.map (addScaling startT endT))
      (fun x hx => by rcases List.mem_map.mp hx with ⟨c, _, rfl⟩; rfl)]
    rw [List.length_map]
  simp only [buildSubQuery, ifEmpty_map, List.map_append, h1, h2, h3, h4,
    List.map_cons, List.map_nil, Stage.kind]

/-- A fully featured concrete sub-window query, used to exhibit the
actual stage order. -/
def exampleQueryKinds : List StageKind :=
  (buildSubQuery 0 3600 "bkt" "ms" ["f"] ["g"]
      [("t", .plain "v"), ("u", .targeted (some "x") (some "c"))]
      [⟨"x", 0, 10, true, false⟩] [⟨"f", none, none, some 2, some 1⟩]
      "1h" "mean" false).map Stage.kind

/-- C2 counterexample: in a rendered query with all stage families
present, the pivot stage strictly precedes the window/aggregation
stage (the claim asserts window precedes pivot), and the last rendered
stage is the window stage, not a scaling stage (the claim asserts the
scaling stages are rendered last). -/
theorem data_query_stage_order_claim_false :
    exampleQueryKinds.indexOf StageKind.pivotK
        < exampleQueryKinds.indexOf StageKind.windowK
      ∧ exampleQueryKinds.getLast? = some StageKind.windowK
      ∧ StageKind.windowK ≠ StageKind.scalingK := by
  refine ⟨by decide, by decide, by decide⟩

/-! ## Scaling-stage semantics (`add_scaling`)

The stage rendered by `add_scaling` maps each row to
`if r._time >= start and r._time <= end then r[name] * slope + offset
else r[name]` — both comparisons inclusive. -/

/-- Value transformation performed by a rendered scaling stage on the
named column at timestamp `t`, translated from the generated map
function text. -/
def scaleApply (st en : Nat) (slope offset : Int) (t : Nat) (v : Int) : Int :=
  if st ≤ t ∧ t ≤ en then v * slope + offset else v

/-- The effect of one rendered stage on the value of its named column
at timestamp `t`; every stage other than a scaling stage is the
identity on an individual value for this purpose. -/
def stageApplyValue : Stage → Nat → Int → Int
  | .scalingStage _ st en sl off, t, v => scaleApply st en sl off t v
  | _, _, v => v

/-- C6 counterexample: the claim says the scaling entry applies only on
the half-open interval `[entry start, entry end)`, leaving the value at
`t = entry end` unchanged.  For the entry with bounds 0 and 100, slope
2, offset 1, the rendered stage transforms the value 3 at timestamp
100 (the entry end) to `3 * 2 + 1 = 7` instead of leaving it at 3:
the generated comparison is `_time <= end`, end-inclusive. -/
theorem add_scaling_claim_false :
    stageApplyValue
        (addScaling 0 5000 ⟨"f", some 0, some 100, some 2, some 1⟩) 100 3 = 7
      ∧ ¬ (100 < 100) := by
  refine ⟨by decide, by decide⟩

/-- C6 (amended): each scaling entry's rendered stage applies the
multiply-then-offset transformation exactly to rows whose timestamp
lies in the closed interval `[entry start, entry end]` — both bounds
inclusive, defaulting to the query's own start/end when absent — and
leaves values at all other timestamps unchanged. -/
theorem add_scaling_closed_interval (qs qe : Nat) (conf : ScaleConf)
    (t : Nat) (v : Int) :
    (conf.start.getD qs ≤ t → t ≤ conf.stop.getD qe →
        stageApplyValue (addScaling qs qe conf) t v
          = v * conf.slope.getD 1 + conf.offset.getD 0)
      ∧ (¬ (conf.start.getD qs ≤ t ∧ t ≤ conf.stop.getD qe) →
        stageApplyValue (addScaling qs qe conf) t v = v) := by
  constructor
  · intro h1 h2
    simp [addScaling, stageApplyValue, scaleApply, h1, h2]
  · intro h
    simp [addScaling, stageApplyValue, scaleApply, h]

/-- Witness for `add_scaling_closed_interval`: a timestamp inside the
closed interval is transformed, one outside is untouched. -/
theorem add_scaling_closed_interval_witness :
    stageApplyValue
        (addScaling 0 100 ⟨"f", none, none, some 2, some 1⟩) 100 3 = 3 * 2 + 1
      ∧ stageApplyValue
        (addScaling 0 100 ⟨"f", none, none, some 2, some 1⟩) 101 3 = 3 :=
  ⟨(add_scaling_closed_interval 0 100 ⟨"f", none, none, some 2, some 1⟩
      100 3).1 (by decide) (by decide),
    (add_scaling_closed_interval 0 100 ⟨"f", none, none, some 2, some 1⟩
      101 3).2 (by decide)⟩

/-! ## Range-filter rendering (`add_filter_range`)

For each entry, `add_filter_range` renders
`r[name] >MIN_SIGN min and r[name] <MAX_SIGN max` where the sign is
the string `=` when the corresponding `Equal` flag is set and empty
otherwise. -/

/-- The `min_equals_sign`: `"=" if filter_field["Min Equal"] else ""`. -/
def minSign (f : RangeFilter) : String := if f.minEqual then "=" else ""

/-- The `max_equals_sign`: `"=" if filter_field["Max Equal"] else ""`. -/
def maxSign (f : RangeFilter) : String := if f.maxEqual then "=" else ""

/-- Store-side meaning of the rendered lower-bound comparison
`x >SIGN lo`. -/
def evalGtSign (sign : String) (x lo : Int) : Bool :=
  if sign = "=" then decide (lo ≤ x) else decide (lo < x)

/-- Store-side meaning of the rendered upper-bound comparison
`x <SIGN hi`. -/
def evalLtSign (sign : String) (x hi : Int) : Bool :=
  if sign = "=" then decide (x ≤ hi) else decide (x < hi)

/-- Whether a row whose filtered field has value `x` passes the clause
rendered for one range-filter entry. -/
def rangeFilterKeeps (f : RangeFilter) (x : Int) : Bool :=
  evalGtSign (minSign f) x f.min && evalLtSign (maxSign f) x f.max

/-- C7: for every range-filter entry, the rendered bound clause uses
`>=` exactly when Min Equal is set and `>` otherwise, and `<=` exactly
when Max Equal is set and `<` otherwise; in particular the entry
`{Field: x, Min: 0, Max: 10, Min Equal: true, Max Equal: false}`
renders a clause equivalent to `x >= 0 and x < 10`. -/
theorem add_filter_range_bounds :
    (∀ (f : RangeFilter) (x : Int),
        rangeFilterKeeps f x = true
          ↔ ((if f.minEqual then f.min ≤ x else f.min < x)
              ∧ (if f.maxEqual then x ≤ f.max else x < f.max)))
      ∧ (∀ x : Int,
        rangeFilterKeeps ⟨"x", 0, 10, true, false⟩ x = true
          ↔ (0 ≤ x ∧ x < 10)) := by
  constructor
  · intro f x
    unfold rangeFilterKeeps evalGtSign evalLtSign minSign maxSign
    cases f.minEqual <;> cases f.maxEqual <;> simp
  · intro x
    unfold rangeFilterKeeps evalGtSign evalLtSign minSign maxSign
    simp

/-! ## Field selection (`add_field`) -/

/-- The field-name list carried by a field-selection stage, if the
stage is one. -/
def getFieldSel : Stage → Option (List String)
  | .fieldFilter fs => some fs
  | _ => none

/-- The field-name lists carried by the field-selection stages of a
rendered query. -/
def fieldSelections (q : List Stage) : List (List String) :=
  q.filterMap getFieldSel

theorem fieldSelections_plainFilters (bf : List (String × BoolFilterVal)) :
    List.filterMap getFieldSel (plainFilters bf) = [] := by
  rw [List.filterMap_eq_nil_iff]
  intro x hx
  have := plainFilters_kind bf x hx
  cases x <;> simp_all [Stage.kind, getFieldSel]

theorem fieldSelections_specificFilters (bf : List (String × BoolFilterVal)) :
    List.filterMap getFieldSel (specificFilters bf) = [] := by
  rw [List.filterMap_eq_nil_iff]
  intro x hx
  have := specificFilters_kind bf x hx
  cases x <;> simp_all [Stage.kind, getFieldSel]

/-- C8 (amended): the rendered field-selection stage is an
OR-combination over exactly the requested field names; field names
referenced only by range filters are not added to it. -/
theorem data_query_field_selection (startT endT : Nat)
    (bucket measurement : String) (fields groups : List String)
    (bf : List (String × BoolFilterVal)) (rf : List RangeFilter)
    (sc : List ScaleConf) (winRange winFunc : String) (hb : Bool) :
    fieldSelections (buildSubQuery startT endT bucket measurement fields
        groups bf rf sc winRange winFunc hb) = [fields] := by
  have h3 : List.filterMap getFieldSel (rf.map rangeFilterStageOf) = [] := by
    rw [List.filterMap_eq_nil_iff]
    intro x hx
    rcases List.mem_map.mp hx with ⟨f, _, rfl⟩
    rfl
  have h4 : List.filterMap getFieldSel
      (sc.map (addScaling startT endT)) = [] := by
    rw [List.filterMap_eq_nil_iff]
    intro x hx
    rcases List.mem_map.mp hx with ⟨c, _, rfl⟩
    rfl
  simp only [buildSubQuery, ifEmpty_map, fieldSelections,
    List.filterMap_append, fieldSelections_plainFilters,
    fieldSelections_specificFilters, h3, h4]
  rfl

/-- C8 counterexample: for a request selecting only field `a` while
range-filtering on field `b`, the rendered field-selection stage ORs
only `a`; the claim requires `b` to appear in it as well. -/
theorem data_query_field_selection_claim_false :
    fieldSelections (buildSubQuery 0 3600 "bkt" "ms" ["a"] []
        [] [⟨"b", 0, 10, true, true⟩] [] "1h" "mean" false) = [["a"]]
      ∧ "b" ∉ (["a"] : List String) := by
  refine ⟨by decide, by decide⟩

/-! ## Absence of request validation (C9)

`data_query` performs no validation: an empty field list, a range
filter with `Min > Max`, or an identifier containing the quoting
delimiter are all interpolated into the query text as-is, and one
query per sub-window is still issued. -/

/-- C9: evaluating the builder at a malformed request — empty field
list and a range filter with Min = 5 > Max = 0 — still renders the
complete stage list (with an empty OR-combination and a contradictory
bound clause) instead of failing with a validation error; the query is
then issued, so the fetch does not fail fast. -/
theorem data_query_no_validation :
    buildSubQuery 0 3600 "bkt" "ms" [] []
        [] [⟨"x", 5, 0, true, true⟩] [] "1h" "mean" false
      = [Stage.importInternal, Stage.fromBucket "bkt",
         Stage.rangeStage 0 3600, Stage.measurementFilter "ms",
         Stage.fieldFilter [], Stage.groupStage ["_field"],
         Stage.pivotStage ["_field"],
         Stage.rangeFilterStage "x" 5 0 true true,
         Stage.windowStage "1h" "mean" false] := by
  decide

/-! ## String-or-list normalization (C10)

`data_query` accepts `fields` and `groups` as `Union[list[str], str]`
and wraps a bare string into a one-element list before building any
query (lines 181–184). -/

/-- The `Union[list[str], str]` type of the `fields`/`groups`
parameters. -/
inductive StrOrList
  | single (s : String)
  | many (l : List String)
  deriving DecidableEq, Repr

/-- The normalization `if isinstance(x, str): x = [x]` applied to
`fields` and `groups` before the sub-window loop. -/
def StrOrList.toList : StrOrList → List String
  | .single s => [s]
  | .many l => l

/-- The public entry point of the builder: `data_query` normalizes
`fields` and `groups`, then renders one query per sub-window; this is
the rendering for one sub-window with the un-normalized parameters. -/
def dataQueryBuild (startT endT : Nat) (bucket measurement : String)
    (fields groups : StrOrList)
    (boolFilters : List (String × BoolFilterVal))
    (rangeFilters : List RangeFilter)
    (scaling : List ScaleConf)
    (winRange winFunc : String) (hourBeginning : Bool) : List Stage :=
  buildSubQuery startT endT bucket measurement fields.toList groups.toList
    boolFilters rangeFilters scaling winRange winFunc hourBeginning

/-- C10: passing a single string for the `fields` or `groups`
parameter of `data_query` behaves identically to passing a one-element
list containing that string — the string is wrapped into a singleton
list before any stage is rendered, so the rendered queries coincide. -/
theorem data_query_string_or_list (startT endT : Nat)
    (bucket measurement : String) (f g : String) (other : StrOrList)
    (bf : List (String × BoolFilterVal)) (rf : List RangeFilter)
    (sc : List ScaleConf) (winRange winFunc : String) (hb : Bool) :
    (dataQueryBuild startT endT bucket measurement (.single f) other
          bf rf sc winRange winFunc hb
        = dataQueryBuild startT endT bucket measurement (.many [f]) other
          bf rf sc winRange winFunc hb)
      ∧ (dataQueryBuild startT endT bucket measurement other (.single g)
          bf rf sc winRange winFunc hb
        = dataQueryBuild startT endT bucket measurement other (.many [g])
          bf rf sc winRange winFunc hb) :=
  ⟨rfl, rfl⟩

/-! ## Chunk accumulation and de-duplication

`data_query` appends each non-empty chunk table to `_measurements`
with `pd.concat`, then, after the loop, keeps only rows whose index
timestamp has not appeared earlier:
`_measurements[~_measurements.index.duplicated(keep='first')]`.
A table row is modelled as a `(timestamp, value)` pair. -/

/-- Remove rows whose timestamp appears in `seen` or earlier in the
list, keeping first occurrences — the semantics of
`index.duplicated(keep='first')`. -/
def dedupFirstAux (seen : List Nat) : List (Nat × Int) → List (Nat × Int)
  | [] => []
  | r :: rs =>
    if r.1 ∈ seen then dedupFirstAux seen rs
    else r :: dedupFirstAux (r.1 :: seen) rs

def dedupFirst (rows : List (Nat × Int)) : List (Nat × Int) :=
  dedupFirstAux [] rows

/-- Concatenate chunk tables and drop duplicate timestamps, keeping the
first occurrence. -/
def mergeChunks (chunks : List (List (Nat × Int))) : List (Nat × Int) :=
  dedupFirst chunks.flatten

/-- One `data_query` call's effect on the accumulated table: the
chunks are concatenated onto the accumulator in sub-window order and
the whole table is de-duplicated keeping first occurrences. -/
def dataQueryMerge (acc : List (Nat × Int))
    (chunks : List (List (Nat × Int))) : List (Nat × Int) :=
  dedupFirst (acc ++ chunks.flatten)

/-- The value stored at timestamp `t`, i.e. the first row indexed `t`. -/
def lookupT (rows : List (Nat × Int)) (t : Nat) : Option Int :=
  (rows.find? (fun r => r.1 == t)).map (fun r => r.2)

theorem dedupFirstAux_congr {s₁ s₂ : List Nat}
    (h : ∀ x, x ∈ s₁ ↔ x ∈ s₂) (l : List (Nat × Int)) :
    dedupFirstAux s₁ l = dedupFirstAux s₂ l := by
  induction l generalizing s₁ s₂ with
  | nil => rfl
  | cons r rs ih =>
    by_cases hm : r.1 ∈ s₁
    · rw [dedupFirstAux, dedupFirstAux, if_pos hm, if_pos ((h r.1).mp hm)]
      exact ih h
    · rw [dedupFirstAux, dedupFirstAux, if_neg hm,
        if_neg (fun hc => hm ((h r.1).mpr hc))]
      refine congrArg _ (ih ?_)
      intro x
      simp only [List.mem_cons]
      exact or_congr Iff.rfl (h x)

theorem dedupFirstAux_sublist (seen : List Nat) (l : List (Nat × Int)) :
    List.Sublist (dedupFirstAux seen l) l := by
  induction l generalizing seen with
  | nil => exact List.Sublist.refl _
  | cons r rs ih =>
    rw [dedupFirstAux]
    split
    · exact (ih seen).cons r
    · exact (ih (r.1 :: seen)).cons₂ r

theorem dedupFirstAux_fst_nodup (seen : List Nat) (l : List (Nat × Int)) :
    ((dedupFirstAux seen l).map Prod.fst).Nodup
      ∧ ∀ t ∈ (dedupFirstAux seen l).map Prod.fst, t ∉ seen := by
  induction l generalizing seen with
  | nil => exact ⟨List.nodup_nil, by simp [dedupFirstAux]⟩
  | cons r rs ih =>
    rw [dedupFirstAux]
    split
    · exact ih seen
    · rcases ih (r.1 :: seen) with ⟨hnd, hni⟩
      constructor
      · rw [List.map_cons, List.nodup_cons]
        exact ⟨fun hc => (hni r.1 hc) (List.mem_cons_self _ _), hnd⟩
      · intro t ht
        rw [List.map_cons, List.mem_cons] at ht
        rcases ht with rfl | ht
        · assumption
        · exact fun hc => (hni t ht) (List.mem_cons_of_mem _ hc)

theorem dedupFirstAux_keep {seen : List Nat} {l : List (Nat × Int)}
    (h1 : ∀ a ∈ l, a.1 ∉ seen) (h2 : (l.map Prod.fst).Nodup) :
    dedupFirstAux seen l = l := by
  induction l generalizing seen with
  | nil => rfl
  | cons r rs ih =>
    rw [List.map_cons, List.nodup_cons] at h2
    rw [dedupFirstAux, if_neg (h1 r (List.mem_cons_self _ _))]
    refine congrArg _ (ih ?_ h2.2)
    intro a ha
    rw [List.mem_cons]
    rintro (hc | hc)
    · exact h2.1 (hc ▸ List.mem_map_of_mem Prod.fst ha)
    · exact h1 a (List.mem_cons_of_mem _ ha) hc

theorem dedupFirstAux_drop_front {seen : List Nat}
    {l₁ : List (Nat × Int)} (l₂ : List (Nat × Int))
    (h : ∀ a ∈ l₁, a.1 ∈ seen) :
    dedupFirstAux seen (l₁ ++ l₂) = dedupFirstAux seen l₂ := by
  induction l₁ with
  | nil => rfl
  | cons r rs ih =>
    rw [List.cons_append, dedupFirstAux,
      if_pos (h r (List.mem_cons_self _ _))]
    exact ih (fun a ha => h a (List.mem_cons_of_mem _ ha))

theorem dedupFirstAux_append_keep {seen : List Nat}
    {l₁ : List (Nat × Int)} (l₂ : List (Nat × Int))
    (h1 : (l₁.map Prod.fst).Nodup) (h2 : ∀ a ∈ l₁, a.1 ∉ seen) :
    dedupFirstAux seen (l₁ ++ l₂)
      = l₁ ++ dedupFirstAux (l₁.map Prod.fst ++ seen) l₂ := by
  induction l₁ generalizing seen with
  | nil => rfl
  | cons r rs ih =>
    rw [List.map_cons, List.nodup_cons] at h1
    rw [List.cons_append, dedupFirstAux,
      if_neg (h2 r (List.mem_cons_self _ _)), List.cons_append]
    refine congrArg _ ?_
    rw [ih h1.2 ?keep]
    case keep =>
      intro a ha
      rw [List.mem_cons]
      rintro (hc | hc)
      · exact h1.1 (hc ▸ List.mem_map_of_mem Prod.fst ha)
      · exact h2 a (List.mem_cons_of_mem _ ha) hc
    refine congrArg _ (dedupFirstAux_congr ?_ l₂)
    intro x
    simp only [List.map_cons, List.mem_append, List.mem_cons]
    tauto

theorem dedupFirstAux_find? {seen : List Nat} {t : Nat}
    (l : List (Nat × Int)) (h : t ∉ seen) :
    (dedupFirstAux seen l).find? (fun r => r.1 == t)
      = l.find? (fun r => r.1 == t) := by
  induction l generalizing seen with
  | nil => rfl
  | cons r rs ih =>
    by_cases hm : r.1 ∈ seen
    · rw [dedupFirstAux, if_pos hm]
      have hne : (r.1 == t) = false := by
        rw [beq_eq_false_iff_ne]
        rintro rfl
        exact h hm
      rw [List.find?_cons, hne]
      exact ih h
    · rw [dedupFirstAux, if_neg hm]
      cases hbeq : (r.1 == t) with
      | true =>
        rw [List.find?_cons, hbeq, List.find?_cons, hbeq]
      | false =>
        rw [List.find?_cons, hbeq, List.find?_cons, hbeq]
        refine ih ?_
        rw [List.mem_cons]
        rintro (hc | hc)
        · rw [beq_eq_false_iff_ne] at hbeq
          exact hbeq hc.symm
        · exact h hc

theorem dedupFirst_lookupT (l : List (Nat × Int)) (t : Nat) :
    lookupT (dedupFirst l) t = lookupT l t := by
  rw [lookupT, lookupT, dedupFirst,
    dedupFirstAux_find? l (List.not_mem_nil t)]

/-- C4 counterexample: when the second chunk arrives with an earlier
timestamp, the merged table is `[(2, 20), (1, 10)]` — the duplicate at
timestamp 2 is dropped (first occurrence wins) but the result is not
sorted by timestamp, because `data_query` never sorts: the claimed
"strictly increasing regardless of chunk order" fails. -/
theorem merge_sorted_claim_false :
    mergeChunks [[(2, 20)], [(1, 10), (2, 99)]] = [(2, 20), (1, 10)]
      ∧ ¬ List.Pairwise (fun a b : Nat × Int => a.1 < b.1)
          (mergeChunks [[(2, 20)], [(1, 10), (2, 99)]]) := by
  refine ⟨by decide, by decide⟩

/-- C4 (amended): when two chunk tables both contain a row at the same
timestamp `T`, the merged result keeps only the row from the
earlier-processed chunk (first occurrence wins), and the merged table
contains no duplicate timestamps; however no sort is applied, so its
timestamps are strictly increasing only when the concatenated chunks
are already nondecreasing by timestamp (as they are when chunks arrive
in sub-window order with time-sorted rows), not regardless of chunk
order. -/
theorem merge_first_wins :
    (∀ chunks : List (List (Nat × Int)),
        ((mergeChunks chunks).map Prod.fst).Nodup)
      ∧ (∀ (A B : List (Nat × Int)) (t : Nat) (v : Int),
        lookupT A t = some v → lookupT (mergeChunks [A, B]) t = some v)
      ∧ (∀ chunks : List (List (Nat × Int)),
        List.Pairwise (fun a b : Nat × Int => a.1 ≤ b.1) chunks.flatten →
          List.Pairwise (fun a b : Nat × Int => a.1 < b.1)
            (mergeChunks chunks)) := by
  refine ⟨?_, ?_, ?_⟩
  · intro chunks
    exact (dedupFirstAux_fst_nodup [] chunks.flatten).1
  · intro A B t v hA
    have hJ : List.flatten [A, B] = A ++ B := by simp
    rw [mergeChunks, hJ, dedupFirst_lookupT, lookupT, List.find?_append]
    rw [lookupT] at hA
    rcases Option.map_eq_some'.mp hA with ⟨r, hr, hv⟩
    rw [hr]
    simpa using hv
  · intro chunks hle
    have hsub := dedupFirstAux_sublist [] chunks.flatten
    have hle' := hle.sublist hsub
    have hnd := (dedupFirstAux_fst_nodup [] chunks.flatten).1
    have hne : List.Pairwise (fun a b : Nat × Int => a.1 ≠ b.1)
        (dedupFirstAux [] chunks.flatten) := by
      rw [List.Nodup, List.pairwise_map] at hnd
      exact hnd
    rw [mergeChunks, dedupFirst]
    exact (hle'.and hne).imp (fun h => lt_of_le_of_ne h.1 h.2)

/-- Witness for `merge_first_wins`: two chunks sharing timestamp 5 —
the first chunk's value 1 survives, and the time-ascending input
yields a strictly increasing merged table. -/
theorem merge_first_wins_witness :
    lookupT [(5, 1)] 5 = some 1
      ∧ lookupT (mergeChunks [[(5, 1)], [(5, 2), (6, 3)]]) 5 = some 1
      ∧ List.Pairwise (fun a b : Nat × Int => a.1 ≤ b.1)
          (List.flatten [[(5, 1)], [(5, 2), (6, 3)]])
      ∧ List.Pairwise (fun a b : Nat × Int => a.1 < b.1)
          (mergeChunks [[(5, 1)], [(5, 2), (6, 3)]]) :=
  ⟨by decide, merge_first_wins.2.1 [(5, 1)] [(5, 2), (6, 3)] 5 1 (by decide),
    by decide, merge_first_wins.2.2 [[(5, 1)], [(5, 2), (6, 3)]] (by decide)⟩

/-! ## Chunked fetching against a deterministic store (C5)

The external executor is modelled as a deterministic store: a function
from timestamp to optional row value.  Querying a window `[a, b)`
returns the rows present at timestamps in `[a, b)`, time-ascending.
A `fetch` is `data_query`: one query per planned sub-window, results
concatenated and merged into the accumulator. -/

/-- The rows a deterministic store returns for one queried window. -/
def fetchRows (row : Nat → Option Int) (s e : Nat) : List (Nat × Int) :=
  (List.range' s (e - s)).filterMap
    (fun t => (row t).map (fun v => (t, v)))

/-- The chunk tables produced by querying each sub-window in order. -/
def chunksFor (row : Nat → Option Int) (ws : List (Nat × Nat)) :
    List (List (Nat × Int)) :=
  ws.map (fun w => fetchRows row w.1 w.2)

/-- A whole fetch with `time_split=None`: one sub-window from the
planner, queried and flattened. -/
def fetchNone (row : Nat → Option Int) (s e : Nat) : List (Nat × Int) :=
  (chunksFor row (noneWindows s e)).flatten

theorem fetchRows_map_fst (row : Nat → Option Int) (l : List Nat) :
    (l.filterMap (fun t => (row t).map (fun v => (t, v)))).map Prod.fst
      = l.filter (fun t => (row t).isSome) := by
  induction l with
  | nil => rfl
  | cons a l ih =>
    cases h : row a with
    | none =>
      rw [List.filterMap_cons, List.filter_cons, h]
      simpa [h] using ih
    | some v =>
      rw [List.filterMap_cons, List.filter_cons, h]
      simpa [h] using ih

theorem fetchRows_fst_eq (row : Nat → Option Int) (s e : Nat) :
    (fetchRows row s e).map Prod.fst
      = (List.range' s (e - s)).filter (fun t => (row t).isSome) :=
  fetchRows_map_fst row _

theorem fetchRows_fst_nodup (row : Nat → Option Int) (s e : Nat) :
    ((fetchRows row s e).map Prod.fst).Nodup := by
  rw [fetchRows_fst_eq]
  exact (List.nodup_range' s (e - s)).filter _

theorem mem_fetchRows {row : Nat → Option Int} {s e : Nat}
    {r : Nat × Int} :
    r ∈ fetchRows row s e
      ↔ (s ≤ r.1 ∧ r.1 < s + (e - s) ∧ row r.1 = some r.2) := by
  rw [fetchRows, List.mem_filterMap]
  constructor
  · rintro ⟨t, ht, hmap⟩
    rcases Option.map_eq_some'.mp hmap with ⟨v, hv, heq⟩
    cases heq
    rw [List.mem_range'_1] at ht
    exact ⟨ht.1, ht.2, hv⟩
  · rintro ⟨h1, h2, h3⟩
    exact ⟨r.1, List.mem_range'_1.mpr ⟨h1, h2⟩, by rw [h3]; rfl⟩

theorem mem_fetchRows_fst {row : Nat → Option Int} {s e t : Nat}
    (h : t ∈ (fetchRows row s e).map Prod.fst) :
    s ≤ t ∧ t < s + (e - s) := by
  rw [fetchRows_fst_eq] at h
  have := (List.mem_filter.mp h).1
  exact List.mem_range'_1.mp this

theorem fetchRows_append (row : Nat → Option Int) {s m e : Nat}
    (h1 : s ≤ m) (h2 : m ≤ e) :
    fetchRows row s e = fetchRows row s m ++ fetchRows row m e := by
  have h3 : e - s = (e - m) + (m - s) := by omega
  have h4 : s + (m - s) = m := by omega
  rw [fetchRows, h3, ← List.range'_append_1, h4, List.filterMap_append]
  rfl

theorem fetchNone_eq (row : Nat → Option Int) {s e : Nat} (h : s ≤ e) :
    fetchNone row s e = fetchRows row s e := by
  have h1 : s + (e - s) = e := by omega
  simp only [fetchNone, chunksFor, noneWindows, secWindows, planWindows,
    noneDiff, List.range_succ, List.range_zero, List.nil_append,
    List.map_cons, List.map_nil, List.flatten_cons, List.flatten_nil,
    List.append_nil, Nat.mul_zero, Nat.mul_one, Nat.add_zero, h1]
  congr 1
  omega

theorem dedupFirst_append_keep {l₁ : List (Nat × Int)}
    (l₂ : List (Nat × Int)) (h : (l₁.map Prod.fst).Nodup) :
    dedupFirst (l₁ ++ l₂) = l₁ ++ dedupFirstAux (l₁.map Prod.fst) l₂ := by
  unfold dedupFirst
  rw [dedupFirstAux_append_keep l₂ h (by simp), List.append_nil]

/-- C5 (amended): with `time_split=None` — where each fetch queries
exactly its requested range — running `fetch` twice against a
deterministic store with overlapping ranges (`s1 ≤ s2 ≤ e1 ≤ e2`) and
merging both results into the same accumulator yields the same final
table as a single fetch covering the union `[s1, e2)`.  (With a split
unit this fails, because the planned sub-windows need not cover the
requested range: see the counterexample.) -/
theorem fetch_overlap_union (row : Nat → Option Int) (s1 e1 s2 e2 : Nat)
    (h1 : s1 ≤ s2) (h2 : s2 ≤ e1) (h3 : e1 ≤ e2) :
    dataQueryMerge (dataQueryMerge [] [fetchNone row s1 e1])
        [fetchNone row s2 e2]
      = dataQueryMerge [] [fetchNone row s1 e2] := by
  have hs1e1 : s1 ≤ e1 := le_trans h1 h2
  have hs2e2 : s2 ≤ e2 := le_trans h2 h3
  have hs1e2 : s1 ≤ e2 := le_trans hs1e1 h3
  rw [fetchNone_eq row hs1e1, fetchNone_eq row hs2e2,
    fetchNone_eq row hs1e2]
  have hAnodup := fetchRows_fst_nodup row s1 e1
  have hUnodup := fetchRows_fst_nodup row s1 e2
  have hdedupA : dedupFirst (fetchRows row s1 e1) = fetchRows row s1 e1 :=
    dedupFirstAux_keep (by simp) hAnodup
  have hdedupU : dedupFirst (fetchRows row s1 e2) = fetchRows row s1 e2 :=
    dedupFirstAux_keep (by simp) hUnodup
  simp only [dataQueryMerge, List.flatten_cons, List.flatten_nil,
    List.append_nil, List.nil_append]
  rw [hdedupA, hdedupU]
  rw [fetchRows_append row h2 h3]
  rw [dedupFirst_append_keep _ hAnodup]
  rw [dedupFirstAux_drop_front _ ?inA]
  case inA =>
    intro a ha
    rcases mem_fetchRows.mp ha with ⟨ha1, ha2, ha3⟩
    have haA : a ∈ fetchRows row s1 e1 :=
      mem_fetchRows.mpr ⟨le_trans h1 ha1, by omega, ha3⟩
    exact List.mem_map_of_mem Prod.fst haA
  rw [dedupFirstAux_keep ?notSeen (fetchRows_fst_nodup row e1 e2)]
  case notSeen =>
    intro a ha hmem
    rcases mem_fetchRows.mp ha with ⟨ha1, _, _⟩
    have := mem_fetchRows_fst hmem
    omega
  exact (fetchRows_append row hs1e1 h3).symm

/-- Witness for `fetch_overlap_union` with the everywhere-defined
store `fun t => some t`, first fetch `[0, 2)`, second `[1, 3)`. -/
theorem fetch_overlap_union_witness :
    ((0 : Nat) ≤ 1 ∧ (1 : Nat) ≤ 2 ∧ (2 : Nat) ≤ 3)
      ∧ dataQueryMerge
          (dataQueryMerge [] [fetchNone (fun t => some (t : Int)) 0 2])
          [fetchNone (fun t => some (t : Int)) 1 3]
        = dataQueryMerge [] [fetchNone (fun t => some (t : Int)) 0 3] :=
  ⟨⟨by decide, by decide, by decide⟩,
    fetch_overlap_union (fun t => some (t : Int)) 0 2 1 3
      (by decide) (by decide) (by decide)⟩

/-- A sparse deterministic store with one row every 1800 s. -/
def row1800 (t : Nat) : Option Int :=
  if t % 1800 = 0 then some (t : Int) else none

set_option maxRecDepth 100000 in
/-- C5 counterexample: with the hour split unit the claim fails.
Fetching `[0 s, 5400 s)` then `[1800 s, 9000 s)` (overlapping ranges)
and merging both into the same accumulator retains the store's rows at
0, 1800, 3600, 5400 and 7200 s, while a single fetch covering the
union `[0 s, 9000 s)` plans only two one-hour sub-windows (the hour
count 9000 s // 3600 s = 2 is rounded down) and so misses the rows at
5400 and 7200 s: the two tables differ. -/
theorem fetch_overlap_claim_false :
    dataQueryMerge
        (dataQueryMerge [] (chunksFor row1800 (hourWindows 0 5400)))
        (chunksFor row1800 (hourWindows 1800 9000))
      ≠ dataQueryMerge [] (chunksFor row1800 (hourWindows 0 9000)) := by
  decide

end Caderidflux
